import Mathlib

/-!
Verification of the DMD (digital micromirror device) diffraction simulator
`simulate_dmd.py`.  The Python source computes with floating-point numbers;
here the same formulas are embedded over the exact real numbers `ℝ` (and `ℂ`
for field values), so "agreement to numerical tolerance" statements become
exact equalities.  NumPy's NaN sentinel is modelled by `Option ℝ` (`none` =
NaN) for the diffraction solvers, where NaN propagation is load-bearing;
elsewhere `Real.sqrt` is used and statements are restricted to nonnegative
radicands (where the source produces a real value rather than NaN).
Python exceptions are modelled by `Except String`.
-/

noncomputable section

open Real Finset

/-- A 3-component real vector `(x, y, z)`, one propagation direction. -/
structure Vec3 where
  x : ℝ
  y : ℝ
  z : ℝ
deriving DecidableEq

instance : Sub Vec3 := ⟨fun u v => ⟨u.x - v.x, u.y - v.y, u.z - v.z⟩⟩

theorem Vec3.sub_def (u v : Vec3) : u - v = ⟨u.x - v.x, u.y - v.y, u.z - v.z⟩ := rfl

/-- Source `sinc_fn(x) = sin(x)/x`, with the removable singularity set to `1`
(the source writes `y[x == 0] = 1`). -/
def sinc_fn (x : ℝ) : ℝ := if x = 0 then 1 else Real.sin x / x

/-- Mode string argument of `blaze_condition_fn` ('plus' / 'minus'). -/
inductive BlazeMode
  | plus
  | minus

/-- Source `blaze_condition_fn(gamma, amb, mode, n_vec)`: the dimensionless sinc
argument A_+ / A_- from the source, literally transcribed. -/
def blaze_condition_fn (gamma : ℝ) (amb : Vec3) (mode : BlazeMode) (n_vec : Vec3) : ℝ :=
  match mode with
  | .plus =>
      (n_vec.x ^ 2 * (1 - Real.cos gamma) + Real.cos gamma) * amb.x +
      (n_vec.x * n_vec.y * (1 - Real.cos gamma) + n_vec.z * Real.sin gamma) * amb.y +
      (n_vec.x * n_vec.z * (1 - Real.cos gamma) - n_vec.y * Real.sin gamma) * amb.z
  | .minus =>
      (n_vec.x * n_vec.y * (1 - Real.cos gamma) - n_vec.z * Real.sin gamma) * amb.x +
      (n_vec.y ^ 2 * (1 - Real.cos gamma) + Real.cos gamma) * amb.y +
      (n_vec.y * n_vec.z * (1 - Real.cos gamma) + n_vec.x * Real.sin gamma) * amb.z

/-- The default swivel axis `n_vec = (1, 1, 0)/sqrt(2)` of the source. -/
def default_n_vec : Vec3 := ⟨1 / Real.sqrt 2, 1 / Real.sqrt 2, 0⟩

/-- Source `blaze_envelope(wavelength, gamma, wx, wy, a_minus_b, n_vec)` from the
source: `sinc(0.5*k*wx*A_+) * sinc(0.5*k*wy*A_-)` with `k = 2*pi/wavelength`.
Note the source does NOT multiply by `wx*wy`; its callers do. -/
def blaze_envelope (wavelength gamma wx wy : ℝ) (a_minus_b : Vec3) (n_vec : Vec3) : ℝ :=
  sinc_fn (0.5 * (2 * Real.pi / wavelength) * wx *
      blaze_condition_fn gamma a_minus_b .plus n_vec) *
  sinc_fn (0.5 * (2 * Real.pi / wavelength) * wy *
      blaze_condition_fn gamma a_minus_b .minus n_vec)

/-- Modelled from the spec: the spec (§4.2) asserts that `blaze_envelope`
returns `wx*wy*sinc(0.5k*wx*A_+)*sinc(0.5k*wy*A_-)`, i.e. WITH the `wx*wy`
prefactor.  This definition follows the spec's words, to be compared with
`blaze_envelope` above, which was transcribed from the source. -/
def blaze_envelope_spec (wavelength gamma wx wy : ℝ) (a_minus_b : Vec3) (n_vec : Vec3) : ℝ :=
  wx * wy *
    sinc_fn (0.5 * (2 * Real.pi / wavelength) * wx *
        blaze_condition_fn gamma a_minus_b .plus n_vec) *
    sinc_fn (0.5 * (2 * Real.pi / wavelength) * wy *
        blaze_condition_fn gamma a_minus_b .minus n_vec)

/-- Source `xyz2mirror(vx, vy, vz, gamma)`: xyz coordinates to the 1-2-3 mirror
frame. -/
def xyz2mirror (vx vy vz gamma : ℝ) : ℝ × ℝ × ℝ :=
  (Real.cos gamma / Real.sqrt 2 * (vx - vy) - Real.sin gamma * vz,
   1 / Real.sqrt 2 * (vx + vy),
   Real.sin gamma / Real.sqrt 2 * (vx - vy) + Real.cos gamma * vz)

/-- Source `mirror2xyz(v1, v2, v3, gamma)`: the mirror frame back to xyz. -/
def mirror2xyz (v1 v2 v3 gamma : ℝ) : ℝ × ℝ × ℝ :=
  (Real.cos gamma / Real.sqrt 2 * v1 + 1 / Real.sqrt 2 * v2 + Real.sin gamma / Real.sqrt 2 * v3,
   -(Real.cos gamma) / Real.sqrt 2 * v1 + 1 / Real.sqrt 2 * v2 - Real.sin gamma / Real.sqrt 2 * v3,
   -(Real.sin gamma) * v1 + Real.cos gamma * v3)

/-- Source `solve_blaze_output(uvec_in, gamma)`: convert to mirror coordinates,
negate the normal (3rd) component, convert back (scalar kernel of the
vectorized source function). -/
def solve_blaze_output (uvec_in : Vec3) (gamma : ℝ) : Vec3 :=
  let a := xyz2mirror uvec_in.x uvec_in.y uvec_in.z gamma
  let b := mirror2xyz a.1 a.2.1 (-a.2.2) gamma
  ⟨b.1, b.2.1, b.2.2⟩

/-- Source `solve_blaze_input(uvecs_out, gamma)` just calls `solve_blaze_output`. -/
def solve_blaze_input (uvecs_out : Vec3) (gamma : ℝ) : Vec3 :=
  solve_blaze_output uvecs_out gamma

lemma sqrt_two_mul_self : Real.sqrt 2 * Real.sqrt 2 = 2 :=
  Real.mul_self_sqrt (by norm_num)

lemma sqrt_two_ne_zero : Real.sqrt 2 ≠ 0 := by
  have : (0 : ℝ) < Real.sqrt 2 := Real.sqrt_pos.mpr (by norm_num)
  exact ne_of_gt this

/-- Round trip mirror frame → xyz → mirror frame is the identity. -/
lemma xyz2mirror_mirror2xyz (v1 v2 v3 gamma : ℝ) :
    xyz2mirror (mirror2xyz v1 v2 v3 gamma).1 (mirror2xyz v1 v2 v3 gamma).2.1
      (mirror2xyz v1 v2 v3 gamma).2.2 gamma = (v1, v2, v3) := by
  have h2 := sqrt_two_mul_self
  have hp := Real.sin_sq_add_cos_sq gamma
  unfold xyz2mirror mirror2xyz
  refine Prod.ext ?_ (Prod.ext ?_ ?_) <;> simp only
  · field_simp
    linear_combination (Real.sqrt 2 * ((Real.cos gamma ^ 2 + 2 * Real.sin gamma ^ 2 - 2) * v1 -
      Real.cos gamma * v2 - 2 * Real.sin gamma * Real.cos gamma * v3)) * h2 +
      (4 * Real.sqrt 2 * v1) * hp
  · field_simp
    linear_combination (Real.sqrt 2 * (-v2 - Real.cos gamma * v1)) * h2
  · field_simp
    linear_combination (Real.sqrt 2 * (-(Real.sin gamma * Real.cos gamma * v1) -
      Real.sin gamma * v2 + 2 * Real.cos gamma ^ 2 * v3 - 2 * v3)) * h2 +
      (4 * Real.sqrt 2 * v3) * hp

/-- Round trip xyz → mirror frame → xyz is the identity. -/
lemma mirror2xyz_xyz2mirror (vx vy vz gamma : ℝ) :
    mirror2xyz (xyz2mirror vx vy vz gamma).1 (xyz2mirror vx vy vz gamma).2.1
      (xyz2mirror vx vy vz gamma).2.2 gamma = (vx, vy, vz) := by
  have h2 := sqrt_two_mul_self
  have hp := Real.sin_sq_add_cos_sq gamma
  unfold xyz2mirror mirror2xyz
  refine Prod.ext ?_ (Prod.ext ?_ ?_) <;> simp only
  · field_simp
    linear_combination (vx - vy) * hp
  · field_simp
    linear_combination (-(4 : ℝ) * (vx - vy)) * hp
  · field_simp
    linear_combination (Real.sin gamma ^ 2 * vz + Real.cos gamma ^ 2 * vz) * h2 + 2 * vz * hp

/-- C10: `solve_blaze_output` is an involution, and `solve_blaze_input` is
definitionally the same map. -/
theorem solve_blaze_output_involution (v : Vec3) (gamma : ℝ) :
    solve_blaze_output (solve_blaze_output v gamma) gamma = v ∧
    solve_blaze_input v gamma = solve_blaze_output v gamma := by
  constructor
  · unfold solve_blaze_output
    have h1 := xyz2mirror_mirror2xyz (xyz2mirror v.x v.y v.z gamma).1
      (xyz2mirror v.x v.y v.z gamma).2.1 (-(xyz2mirror v.x v.y v.z gamma).2.2) gamma
    have h2 := mirror2xyz_xyz2mirror v.x v.y v.z gamma
    simp only [h1]
    simp only [neg_neg]
    rw [h2]
  · rfl

/-- C2 counterexample: at `wavelength=1`, `gamma=0`, `wx=wy=2`, `Δ=(0,0,0)`,
the source's `blaze_envelope` returns `1`, not the `wx*wy*sinc*sinc = 4` the
spec asserts (the `wx*wy` prefactor lives in the callers, not here). -/
theorem blaze_envelope_prefactor_counterexample :
    blaze_envelope 1 0 2 2 ⟨0, 0, 0⟩ default_n_vec ≠
      blaze_envelope_spec 1 0 2 2 ⟨0, 0, 0⟩ default_n_vec := by
  unfold blaze_envelope blaze_envelope_spec blaze_condition_fn sinc_fn
  norm_num

/-- C2 amended: the spec's formula `wx*wy*sinc(0.5k*wx*A_+)*sinc(0.5k*wy*A_-)`
equals `wx*wy` times the value `blaze_envelope` actually returns; the source
function itself omits the `wx*wy` prefactor (its callers multiply it in). -/
theorem blaze_envelope_spec_eq_scaled (wavelength gamma wx wy : ℝ) (v n_vec : Vec3) :
    blaze_envelope_spec wavelength gamma wx wy v n_vec =
      wx * wy * blaze_envelope wavelength gamma wx wy v n_vec := by
  unfold blaze_envelope blaze_envelope_spec
  ring

/-- The direction difference `a - solve_blaze_output(a, gamma)` is along the
mirror normal: `sqrt 2 * sin γ * a3, -(sqrt 2 * sin γ * a3), 2 * cos γ * a3)`
where `a3` is the mirror-normal component of `a`. -/
lemma sub_solve_blaze_output (a : Vec3) (gamma : ℝ) :
    a - solve_blaze_output a gamma =
      ⟨Real.sqrt 2 * Real.sin gamma * (xyz2mirror a.x a.y a.z gamma).2.2,
       -(Real.sqrt 2 * Real.sin gamma * (xyz2mirror a.x a.y a.z gamma).2.2),
       2 * Real.cos gamma * (xyz2mirror a.x a.y a.z gamma).2.2⟩ := by
  have h2 := sqrt_two_mul_self
  have hp := Real.sin_sq_add_cos_sq gamma
  unfold solve_blaze_output xyz2mirror mirror2xyz
  rw [Vec3.sub_def]
  simp only [Vec3.mk.injEq]
  refine ⟨?_, ?_, ?_⟩
  · field_simp
    linear_combination (-(Real.sqrt 2) * (a.x - a.y)) * hp
  · field_simp
    linear_combination (-(4 : ℝ) * Real.sqrt 2 * (a.y - a.x)) * hp
  · field_simp
    linear_combination (-(a.z) * Real.sin gamma ^ 2 * Real.sqrt 2 +
      a.z * Real.cos gamma ^ 2 * Real.sqrt 2 + 2 * Real.sin gamma * Real.cos gamma * a.x -
      2 * Real.sin gamma * Real.cos gamma * a.y) * h2 +
      (-(2 : ℝ) * a.z * Real.sqrt 2) * hp

/-- Both blaze-condition arguments vanish at the blaze-solution direction. -/
lemma blaze_condition_at_blaze (a : Vec3) (gamma : ℝ) (mode : BlazeMode) :
    blaze_condition_fn gamma (a - solve_blaze_output a gamma) mode default_n_vec = 0 := by
  have h2 : Real.sqrt 2 ^ 2 = 2 := Real.sq_sqrt (by norm_num)
  rw [sub_solve_blaze_output]
  cases mode
  · unfold blaze_condition_fn default_n_vec
    simp only
    field_simp
    linear_combination (2 * Real.cos gamma * Real.sin gamma *
      (xyz2mirror a.x a.y a.z gamma).2.2) * h2
  · unfold blaze_condition_fn default_n_vec
    simp only
    field_simp
    linear_combination (-2 * Real.cos gamma * Real.sin gamma *
      (xyz2mirror a.x a.y a.z gamma).2.2) * h2

/-- C3: for any unit input vector and any mirror angle, wavelength and mirror
widths, the blaze envelope evaluated at `Δ = a - solve_blaze_output(a, gamma)`
is exactly `1` (its peak value; the source's envelope is normalized). -/
theorem blaze_envelope_at_blaze_output (a : Vec3) (gamma wavelength wx wy : ℝ)
    (hwl : 0 < wavelength) (hunit : a.x ^ 2 + a.y ^ 2 + a.z ^ 2 = 1) :
    blaze_envelope wavelength gamma wx wy (a - solve_blaze_output a gamma)
      default_n_vec = 1 := by
  unfold blaze_envelope
  rw [blaze_condition_at_blaze, blaze_condition_at_blaze]
  simp [sinc_fn]

/-- Witness for C3 at `a = (0,0,-1)`, `gamma = 0`, `wavelength = 1`,
`wx = wy = 1`. -/
theorem blaze_envelope_at_blaze_output_witness :
    blaze_envelope 1 0 1 1 ((⟨0, 0, -1⟩ : Vec3) - solve_blaze_output ⟨0, 0, -1⟩ 0)
      default_n_vec = 1 :=
  blaze_envelope_at_blaze_output ⟨0, 0, -1⟩ 0 1 1 1 (by norm_num) (by norm_num)

/-- Mode string argument of `get_unit_vector` ('in' / 'out'). -/
inductive UVecMode
  | inMode
  | outMode

/-- Source `get_unit_vector(tx, ty, mode)`: unit vector from the angular
parameterization; mode 'in' takes z-component `-1` before normalization,
mode 'out' takes `+1` (scalar kernel of the vectorized source function). -/
def get_unit_vector (tx ty : ℝ) (mode : UVecMode) : Vec3 :=
  let norm := Real.sqrt (Real.tan tx ^ 2 + Real.tan ty ^ 2 + 1)
  match mode with
  | .inMode => ⟨Real.tan tx / norm, Real.tan ty / norm, -1 / norm⟩
  | .outMode => ⟨Real.tan tx / norm, Real.tan ty / norm, 1 / norm⟩

/-- Source `uvector2txty(vx, vy, vz)`: angles from a unit vector, using the
z-sign-dependent normalization `norm_factor = |1/vz|`. -/
def uvector2txty (vx vy vz : ℝ) : ℝ × ℝ :=
  (Real.arctan (vx * |1 / vz|), Real.arctan (vy * |1 / vz|))

lemma uvec_norm_pos (tx ty : ℝ) :
    0 < Real.sqrt (Real.tan tx ^ 2 + Real.tan ty ^ 2 + 1) :=
  Real.sqrt_pos.mpr (by positivity)

/-- C8: the inverse map `uvector2txty` applied to the components of
`get_unit_vector(tx, ty, mode)` recovers `(tx, ty)` exactly, for angles
strictly inside `(-π/2, π/2)`, in both 'in' and 'out' modes. -/
theorem uvector_txty_roundtrip (tx ty : ℝ)
    (htx1 : -(Real.pi / 2) < tx) (htx2 : tx < Real.pi / 2)
    (hty1 : -(Real.pi / 2) < ty) (hty2 : ty < Real.pi / 2) :
    uvector2txty (get_unit_vector tx ty .inMode).x (get_unit_vector tx ty .inMode).y
        (get_unit_vector tx ty .inMode).z = (tx, ty) ∧
    uvector2txty (get_unit_vector tx ty .outMode).x (get_unit_vector tx ty .outMode).y
        (get_unit_vector tx ty .outMode).z = (tx, ty) := by
  have hn := uvec_norm_pos tx ty
  set n := Real.sqrt (Real.tan tx ^ 2 + Real.tan ty ^ 2 + 1) with hndef
  have hnne : n ≠ 0 := ne_of_gt hn
  have habs_in : |1 / (-1 / n)| = n := by
    rw [div_div_eq_mul_div, one_mul]
    rw [abs_div]
    rw [abs_neg, abs_one, abs_of_pos hn]
    field_simp
  have habs_out : |1 / (1 / n)| = n := by
    rw [one_div_one_div, abs_of_pos hn]
  constructor
  · unfold uvector2txty get_unit_vector
    simp only [← hndef, habs_in]
    rw [div_mul_cancel₀ _ hnne, div_mul_cancel₀ _ hnne]
    rw [Real.arctan_tan htx1 htx2, Real.arctan_tan hty1 hty2]
  · unfold uvector2txty get_unit_vector
    simp only [← hndef, habs_out]
    rw [div_mul_cancel₀ _ hnne, div_mul_cancel₀ _ hnne]
    rw [Real.arctan_tan htx1 htx2, Real.arctan_tan hty1 hty2]

/-- Witness for C8 at `tx = ty = 0`. -/
theorem uvector_txty_roundtrip_witness :
    uvector2txty (get_unit_vector 0 0 .inMode).x (get_unit_vector 0 0 .inMode).y
        (get_unit_vector 0 0 .inMode).z = (0, 0) ∧
    uvector2txty (get_unit_vector 0 0 .outMode).x (get_unit_vector 0 0 .outMode).y
        (get_unit_vector 0 0 .outMode).z = (0, 0) :=
  uvector_txty_roundtrip 0 0 (by linarith [Real.pi_pos]) (by linarith [Real.pi_pos])
    (by linarith [Real.pi_pos]) (by linarith [Real.pi_pos])

/-- Source `get_diffraction_order_limits(wavelength, d, gamma)`:
branches `if gamma > 0`, `elif gamma <= 0`, with a dead `else: raise`.
Returns the pair `(nmin, nmax)`. -/
def get_diffraction_order_limits (wavelength d gamma : ℝ) : Except String (ℤ × ℤ) :=
  if 0 < gamma then
    .ok (1, ⌊d / wavelength * Real.sqrt 2 * Real.sin gamma⌋)
  else if gamma ≤ 0 then
    .ok (⌈d / wavelength * Real.sqrt 2 * Real.sin gamma⌉, -1)
  else
    .error ("ValueError")

/-- C9 counterexample: at `gamma = 0` (with `wavelength = d = 1`) the function
returns `.ok (0, -1)`: the `gamma <= 0` branch matches, so no error is raised,
contrary to the claim. -/
theorem order_limits_gamma_zero_counterexample :
    get_diffraction_order_limits 1 1 0 = .ok (0, -1) := by
  unfold get_diffraction_order_limits
  norm_num

/-- C9 amended: for gamma exactly 0 the `gamma <= 0` branch of the sign test
matches (the branches are `gamma > 0` / `gamma <= 0`, so the `raise` is dead
code), and the function returns `(nmin, nmax) = (0, -1)` without error. -/
theorem order_limits_gamma_zero (wavelength d : ℝ) :
    get_diffraction_order_limits wavelength d 0 = .ok (0, -1) := by
  unfold get_diffraction_order_limits
  norm_num

/-- Value `a3` computed at the top of `solve_combined_condition`:
`1/sqrt(2)/sin(gamma) * wavelength/d * order`. -/
def a3_combined (d gamma wavelength : ℝ) (order : ℤ) : ℝ :=
  1 / Real.sqrt 2 / Real.sin gamma * wavelength / d * order

/-- Source `a1_positive_fn(a2)` of `solve_combined_condition`. -/
def a1_positive_fn (a2 a3 : ℝ) : ℝ := Real.sqrt (1 - a2 ^ 2 - a3 ^ 2)

/-- Signed `a1` used by all the component functions (`positive` branch
chooses the positive root, otherwise its negation). -/
def a1_signed (a2 a3 : ℝ) (positive : Bool) : ℝ :=
  if positive then a1_positive_fn a2 a3 else -(a1_positive_fn a2 a3)

/-- Source `a_fn(a2, positive)` of `solve_combined_condition`: the input unit-vector
solution, from the source's `ax_fn`, `ay_fn`, `az_fn`. -/
def combined_a_fn (d gamma wavelength : ℝ) (order : ℤ) (a2 : ℝ) (positive : Bool) : Vec3 :=
  let a3 := a3_combined d gamma wavelength order
  let a1 := a1_signed a2 a3 positive
  ⟨Real.cos gamma / Real.sqrt 2 * a1 + 1 / Real.sqrt 2 * a2 + Real.sin gamma / Real.sqrt 2 * a3,
   -(Real.cos gamma) / Real.sqrt 2 * a1 + 1 / Real.sqrt 2 * a2 - Real.sin gamma / Real.sqrt 2 * a3,
   -(Real.sin gamma) * a1 + Real.cos gamma * a3⟩

/-- Source `b_fn(a2, positive)` of `solve_combined_condition`: the output unit-vector
solution, from the source's `bx_fn`, `by_fn`, `bz_fn`. -/
def combined_b_fn (d gamma wavelength : ℝ) (order : ℤ) (a2 : ℝ) (positive : Bool) : Vec3 :=
  let a3 := a3_combined d gamma wavelength order
  let a1 := a1_signed a2 a3 positive
  ⟨Real.cos gamma / Real.sqrt 2 * a1 + 1 / Real.sqrt 2 * a2 - Real.sin gamma / Real.sqrt 2 * a3,
   -(Real.cos gamma) / Real.sqrt 2 * a1 + 1 / Real.sqrt 2 * a2 + Real.sin gamma / Real.sqrt 2 * a3,
   -(Real.sin gamma) * a1 - Real.cos gamma * a3⟩

/-- Source `a2_bounds` of `solve_combined_condition`: `[-sqrt(1-a3^2), sqrt(1-a3^2)]`. -/
def combined_a2_bounds (d gamma wavelength : ℝ) (order : ℤ) : ℝ × ℝ :=
  (-Real.sqrt (1 - a3_combined d gamma wavelength order ^ 2),
   Real.sqrt (1 - a3_combined d gamma wavelength order ^ 2))

/-- Rotation `mirror2xyz` preserves the Euclidean norm (it is a rotation). -/
lemma mirror2xyz_norm (v1 v2 v3 gamma : ℝ) :
    (mirror2xyz v1 v2 v3 gamma).1 ^ 2 + (mirror2xyz v1 v2 v3 gamma).2.1 ^ 2 +
      (mirror2xyz v1 v2 v3 gamma).2.2 ^ 2 = v1 ^ 2 + v2 ^ 2 + v3 ^ 2 := by
  have h2 := sqrt_two_mul_self
  have hp := Real.sin_sq_add_cos_sq gamma
  unfold mirror2xyz
  simp only
  field_simp
  linear_combination (Real.sqrt 2 ^ 2 * (-(4 * Real.cos gamma * v1 * v2) +
      2 * Real.cos gamma ^ 2 * v1 ^ 2 + 2 * v2 ^ 2) + 8 * Real.cos gamma ^ 2 * v1 ^ 2 +
      8 * Real.cos gamma ^ 2 * v3 ^ 2 + 8 * Real.sin gamma ^ 2 * v1 ^ 2 - 8 * v1 ^ 2 +
      4 * Real.sin gamma ^ 2 * v3 ^ 2 - 8 * v3 ^ 2) * h2 +
    (16 * (v1 ^ 2 + v3 ^ 2)) * hp

/-- C7: on the interior of the `a2` bounds, and for both sign branches, the
parametric solutions of `solve_combined_condition` are unit vectors, satisfy
the grating equation for order `(n, -n)`, and satisfy the blaze condition
`b = solve_blaze_output(a, gamma)`. -/
theorem solve_combined_condition_correct
    (d gamma wavelength : ℝ) (order : ℤ) (a2 : ℝ) (positive : Bool)
    (hd : 0 < d) (hs : Real.sin gamma ≠ 0) (hwl : 0 < wavelength)
    (ha3 : |a3_combined d gamma wavelength order| ≤ 1)
    (ha2l : (combined_a2_bounds d gamma wavelength order).1 ≤ a2)
    (ha2r : a2 ≤ (combined_a2_bounds d gamma wavelength order).2) :
    ((combined_a_fn d gamma wavelength order a2 positive).x ^ 2 +
       (combined_a_fn d gamma wavelength order a2 positive).y ^ 2 +
       (combined_a_fn d gamma wavelength order a2 positive).z ^ 2 = 1) ∧
    ((combined_b_fn d gamma wavelength order a2 positive).x ^ 2 +
       (combined_b_fn d gamma wavelength order a2 positive).y ^ 2 +
       (combined_b_fn d gamma wavelength order a2 positive).z ^ 2 = 1) ∧
    ((combined_b_fn d gamma wavelength order a2 positive).x =
       (combined_a_fn d gamma wavelength order a2 positive).x - wavelength * order / d) ∧
    ((combined_b_fn d gamma wavelength order a2 positive).y =
       (combined_a_fn d gamma wavelength order a2 positive).y + wavelength * order / d) ∧
    combined_b_fn d gamma wavelength order a2 positive =
      solve_blaze_output (combined_a_fn d gamma wavelength order a2 positive) gamma := by
  have h2 := sqrt_two_mul_self
  set a3 := a3_combined d gamma wavelength order with ha3def
  set a1 := a1_signed a2 a3 positive with ha1def
  have ha3sq : a3 ^ 2 ≤ 1 := by
    rw [← sq_abs]
    nlinarith [abs_nonneg a3, ha3]
  have ha2abs : |a2| ≤ Real.sqrt (1 - a3 ^ 2) := by
    unfold combined_a2_bounds at ha2l ha2r
    exact abs_le.mpr ⟨ha2l, ha2r⟩
  have hrad : 0 ≤ 1 - a2 ^ 2 - a3 ^ 2 := by
    have hsq := Real.sq_sqrt (show (0:ℝ) ≤ 1 - a3 ^ 2 by linarith)
    nlinarith [abs_nonneg a2, sq_abs a2, ha2abs, Real.sqrt_nonneg (1 - a3 ^ 2)]
  have ha1sq : a1 ^ 2 = 1 - a2 ^ 2 - a3 ^ 2 := by
    rw [ha1def]
    cases positive <;> simp only [a1_signed, a1_positive_fn, Bool.false_eq_true,
      if_true, if_false, neg_sq] <;> exact Real.sq_sqrt hrad
  have hax : combined_a_fn d gamma wavelength order a2 positive =
      ⟨(mirror2xyz a1 a2 a3 gamma).1, (mirror2xyz a1 a2 a3 gamma).2.1,
        (mirror2xyz a1 a2 a3 gamma).2.2⟩ := rfl
  have hbx : combined_b_fn d gamma wavelength order a2 positive =
      ⟨(mirror2xyz a1 a2 (-a3) gamma).1, (mirror2xyz a1 a2 (-a3) gamma).2.1,
        (mirror2xyz a1 a2 (-a3) gamma).2.2⟩ := by
    simp only [combined_b_fn, mirror2xyz]
    rw [← ha3def, ← ha1def]
    simp only [Vec3.mk.injEq]
    refine ⟨by ring, by ring, by ring⟩
  refine ⟨?_, ?_, ?_, ?_, ?_⟩
  · rw [hax]
    simp only
    rw [mirror2xyz_norm]
    linarith [ha1sq]
  · rw [hbx]
    simp only
    rw [mirror2xyz_norm]
    linear_combination ha1sq
  · rw [hax, hbx]
    simp only
    unfold mirror2xyz
    simp only
    rw [ha3def]
    unfold a3_combined
    field_simp
    linear_combination (Real.sin gamma ^ 2 * d ^ 2 * wavelength * (order : ℝ) *
      Real.sqrt 2 ^ 4) * h2
  · rw [hax, hbx]
    simp only
    unfold mirror2xyz
    simp only
    rw [ha3def]
    unfold a3_combined
    field_simp
    linear_combination (-(4 : ℝ) * Real.sin gamma ^ 2 * d ^ 2 * wavelength * (order : ℝ) *
      Real.sqrt 2 ^ 2) * h2
  · rw [hax, hbx]
    unfold solve_blaze_output
    simp only
    rw [xyz2mirror_mirror2xyz]

/-- Witness for C7 at `d = 1`, `gamma = pi/2`, `wavelength = 1`, `order = 0`,
`a2 = 0`, positive branch. -/
theorem solve_combined_condition_correct_witness :
    ((combined_a_fn 1 (Real.pi / 2) 1 0 0 true).x ^ 2 +
       (combined_a_fn 1 (Real.pi / 2) 1 0 0 true).y ^ 2 +
       (combined_a_fn 1 (Real.pi / 2) 1 0 0 true).z ^ 2 = 1) ∧
    ((combined_b_fn 1 (Real.pi / 2) 1 0 0 true).x ^ 2 +
       (combined_b_fn 1 (Real.pi / 2) 1 0 0 true).y ^ 2 +
       (combined_b_fn 1 (Real.pi / 2) 1 0 0 true).z ^ 2 = 1) ∧
    ((combined_b_fn 1 (Real.pi / 2) 1 0 0 true).x =
       (combined_a_fn 1 (Real.pi / 2) 1 0 0 true).x - 1 * (0 : ℤ) / 1) ∧
    ((combined_b_fn 1 (Real.pi / 2) 1 0 0 true).y =
       (combined_a_fn 1 (Real.pi / 2) 1 0 0 true).y + 1 * (0 : ℤ) / 1) ∧
    combined_b_fn 1 (Real.pi / 2) 1 0 0 true =
      solve_blaze_output (combined_a_fn 1 (Real.pi / 2) 1 0 0 true) (Real.pi / 2) :=
  solve_combined_condition_correct 1 (Real.pi / 2) 1 0 0 true (by norm_num)
    (by rw [Real.sin_pi_div_two]; norm_num) (by norm_num)
    (by norm_num [a3_combined])
    (by norm_num [combined_a2_bounds, a3_combined, Real.sqrt_one])
    (by norm_num [combined_a2_bounds, a3_combined, Real.sqrt_one])

/-- A real value or NaN (`none`), modelling one NumPy float component where
NaN propagation matters. -/
abbrev RNaN := Option ℝ

/-- Binary arithmetic on NaN-extended reals: NaN propagates. -/
def rmap2 (f : ℝ → ℝ → ℝ) (u v : RNaN) : RNaN :=
  u.bind fun a => v.map fun b => f a b

/-- Model of `np.sqrt` on NaN-extended reals: NaN on NaN input and on negative
radicand. -/
def nan_sqrt (u : RNaN) : RNaN :=
  u.bind fun t => if t < 0 then none else some (Real.sqrt t)

/-- A 3-vector of NaN-extended reals. -/
structure V3N where
  x : RNaN
  y : RNaN
  z : RNaN
deriving DecidableEq

/-- Source `solve_diffraction_output(uvecs_in, dx, dy, wavelength, order)` (scalar
kernel): grating equation componentwise, z from the unit-norm constraint,
then `bx, by` are overwritten with NaN wherever `bz` is NaN
(`bx[np.isnan(bz)] = np.nan`). -/
def solve_diffraction_output (uvec_in : V3N) (dx dy wavelength : ℝ) (ox oy : ℤ) : V3N :=
  let bx := uvec_in.x.map fun t => t - wavelength / dx * ox
  let b_y := uvec_in.y.map fun t => t - wavelength / dy * oy
  let bz := nan_sqrt (rmap2 (fun u v => 1 - u ^ 2 - v ^ 2) bx b_y)
  if bz = none then ⟨none, none, none⟩ else ⟨bx, b_y, bz⟩

/-- Source `solve_diffraction_input(uvecs_out, dx, dy, wavelength, order)` (scalar
kernel): grating equation componentwise, `az = -sqrt(1 - ax^2 - ay^2)`; note
the source does NOT overwrite `ax, ay` when `az` is NaN. -/
def solve_diffraction_input (uvec_out : V3N) (dx dy wavelength : ℝ) (ox oy : ℤ) : V3N :=
  let ax := uvec_out.x.map fun t => t + wavelength / dx * ox
  let ay := uvec_out.y.map fun t => t + wavelength / dy * oy
  let az := (nan_sqrt (rmap2 (fun u v => 1 - u ^ 2 - v ^ 2) ax ay)).map fun t => -t
  ⟨ax, ay, az⟩

/-- C4 counterexample: with unit input `a = (1/2, 0, -sqrt(3)/2)`,
`wavelength = 1/2`, `dx = dy = 1`, order `(1, 0)` (forward step feasible),
chaining `solve_diffraction_output` with `solve_diffraction_input` at the
NEGATED order `(-1, 0)` returns x-component `-1/2`, not the original `1/2`. -/
theorem diffraction_roundtrip_negated_order_fails :
    solve_diffraction_input
        (solve_diffraction_output ⟨some (1 / 2), some 0, some (-(Real.sqrt 3) / 2)⟩
          1 1 (1 / 2) 1 0)
        1 1 (1 / 2) (-1) 0 ≠
      (⟨some (1 / 2), some 0, some (-(Real.sqrt 3) / 2)⟩ : V3N) := by
  have h1 : solve_diffraction_output
      (⟨some (1 / 2), some 0, some (-(Real.sqrt 3) / 2)⟩ : V3N) 1 1 (1 / 2) 1 0 =
      ⟨some 0, some 0, some 1⟩ := by
    unfold solve_diffraction_output
    norm_num [nan_sqrt, rmap2, Real.sqrt_one]
    intro h
    exact absurd h (by simp)
  rw [h1]
  have h2 : (solve_diffraction_input (⟨some 0, some 0, some 1⟩ : V3N) 1 1 (1 / 2) (-1) 0).x =
      some (-(1 / 2)) := by
    unfold solve_diffraction_input
    norm_num
  intro heq
  rw [heq] at h2
  simp only [Option.some.injEq] at h2
  norm_num at h2

/-- C4 amended: chaining `solve_diffraction_output` with
`solve_diffraction_input` at the SAME order (the source's input solver adds
back exactly what the output solver subtracted) recovers the original unit
input vector with incoming orientation (`az <= 0`); when the forward step is
infeasible the round trip is all-NaN. -/
theorem diffraction_roundtrip_same_order (ax ay az dx dy wavelength : ℝ) (ox oy : ℤ)
    (hunit : ax ^ 2 + ay ^ 2 + az ^ 2 = 1) (hz : az ≤ 0) :
    (0 ≤ 1 - (ax - wavelength / dx * ox) ^ 2 - (ay - wavelength / dy * oy) ^ 2 →
      solve_diffraction_input
          (solve_diffraction_output ⟨some ax, some ay, some az⟩ dx dy wavelength ox oy)
          dx dy wavelength ox oy = ⟨some ax, some ay, some az⟩) ∧
    (1 - (ax - wavelength / dx * ox) ^ 2 - (ay - wavelength / dy * oy) ^ 2 < 0 →
      solve_diffraction_input
          (solve_diffraction_output ⟨some ax, some ay, some az⟩ dx dy wavelength ox oy)
          dx dy wavelength ox oy = ⟨none, none, none⟩) := by
  have h1 : 1 - ax ^ 2 - ay ^ 2 = az ^ 2 := by linarith
  constructor
  · intro hfeas
    have hout : solve_diffraction_output ⟨some ax, some ay, some az⟩ dx dy wavelength ox oy =
        ⟨some (ax - wavelength / dx * ox), some (ay - wavelength / dy * oy),
          some (Real.sqrt (1 - (ax - wavelength / dx * ox) ^ 2 -
            (ay - wavelength / dy * oy) ^ 2))⟩ := by
      unfold solve_diffraction_output
      simp only [Option.map_some', rmap2, Option.some_bind, nan_sqrt]
      rw [if_neg (not_lt.mpr hfeas)]
      simp
    rw [hout]
    unfold solve_diffraction_input
    simp only [Option.map_some', rmap2, Option.some_bind, nan_sqrt]
    have hxx : ax - wavelength / dx * (ox : ℝ) + wavelength / dx * (ox : ℝ) = ax := by ring
    have hyy : ay - wavelength / dy * (oy : ℝ) + wavelength / dy * (oy : ℝ) = ay := by ring
    rw [hxx, hyy, h1]
    rw [if_neg (not_lt.mpr (sq_nonneg az))]
    simp only [Option.map_some']
    rw [Real.sqrt_sq_eq_abs, abs_of_nonpos hz, neg_neg]
  · intro hinf
    have hout : solve_diffraction_output ⟨some ax, some ay, some az⟩ dx dy wavelength ox oy =
        ⟨none, none, none⟩ := by
      unfold solve_diffraction_output
      simp only [Option.map_some', rmap2, Option.some_bind, nan_sqrt]
      rw [if_pos hinf]
      simp
    rw [hout]
    unfold solve_diffraction_input
    simp [rmap2, nan_sqrt]

/-- Witness for C4 (amended) at `a = (1/2, 0, -sqrt(3)/2)`, `dx = dy = 1`,
`wavelength = 1/2`, order `(1, 0)` (feasible branch). -/
theorem diffraction_roundtrip_same_order_witness :
    solve_diffraction_input
        (solve_diffraction_output ⟨some (1 / 2), some 0, some (-(Real.sqrt 3) / 2)⟩
          1 1 (1 / 2) 1 0)
        1 1 (1 / 2) 1 0 = ⟨some (1 / 2), some 0, some (-(Real.sqrt 3) / 2)⟩ :=
  (diffraction_roundtrip_same_order (1 / 2) 0 (-(Real.sqrt 3) / 2) 1 1 (1 / 2) 1 0
    (by linear_combination (1 / 4 : ℝ) * Real.sq_sqrt (show (0:ℝ) ≤ 3 by norm_num))
    (by linarith [Real.sqrt_nonneg 3])).1 (by norm_num)

/-- C5: evanescent orders are flagged with NaN, not an exception and not a
complex number: when `1 - bx^2 - by^2 < 0`, `solve_diffraction_output`
returns an all-NaN vector, and `solve_diffraction_input` returns NaN in the
z-component (its x/y keep the grating-equation values — the source only
overwrites `bx, by` in the output solver); for feasible entries both return
the unmodified grating-equation/sqrt values. -/
theorem solve_diffraction_nan_flagging
    (ax ay az bx0 by0 bz0 dx dy wavelength : ℝ) (ox oy : ℤ) :
    (1 - (ax - wavelength / dx * ox) ^ 2 - (ay - wavelength / dy * oy) ^ 2 < 0 →
      solve_diffraction_output ⟨some ax, some ay, some az⟩ dx dy wavelength ox oy =
        ⟨none, none, none⟩) ∧
    (0 ≤ 1 - (ax - wavelength / dx * ox) ^ 2 - (ay - wavelength / dy * oy) ^ 2 →
      solve_diffraction_output ⟨some ax, some ay, some az⟩ dx dy wavelength ox oy =
        ⟨some (ax - wavelength / dx * ox), some (ay - wavelength / dy * oy),
          some (Real.sqrt (1 - (ax - wavelength / dx * ox) ^ 2 -
            (ay - wavelength / dy * oy) ^ 2))⟩) ∧
    (1 - (bx0 + wavelength / dx * ox) ^ 2 - (by0 + wavelength / dy * oy) ^ 2 < 0 →
      solve_diffraction_input ⟨some bx0, some by0, some bz0⟩ dx dy wavelength ox oy =
        ⟨some (bx0 + wavelength / dx * ox), some (by0 + wavelength / dy * oy), none⟩) ∧
    (0 ≤ 1 - (bx0 + wavelength / dx * ox) ^ 2 - (by0 + wavelength / dy * oy) ^ 2 →
      solve_diffraction_input ⟨some bx0, some by0, some bz0⟩ dx dy wavelength ox oy =
        ⟨some (bx0 + wavelength / dx * ox), some (by0 + wavelength / dy * oy),
          some (-Real.sqrt (1 - (bx0 + wavelength / dx * ox) ^ 2 -
            (by0 + wavelength / dy * oy) ^ 2))⟩) := by
  refine ⟨?_, ?_, ?_, ?_⟩
  · intro hinf
    unfold solve_diffraction_output
    simp only [Option.map_some', rmap2, Option.some_bind, nan_sqrt]
    rw [if_pos hinf]
    simp
  · intro hfeas
    unfold solve_diffraction_output
    simp only [Option.map_some', rmap2, Option.some_bind, nan_sqrt]
    rw [if_neg (not_lt.mpr hfeas)]
    simp
  · intro hinf
    unfold solve_diffraction_input
    simp only [Option.map_some', rmap2, Option.some_bind, nan_sqrt]
    rw [if_pos hinf]
    simp
  · intro hfeas
    unfold solve_diffraction_input
    simp only [Option.map_some', rmap2, Option.some_bind, nan_sqrt]
    rw [if_neg (not_lt.mpr hfeas)]
    simp

/-- Witness for C5: order `(2, 0)` from normal incidence is evanescent
(`1 - 2^2 < 0`) and yields the all-NaN output vector. -/
theorem solve_diffraction_nan_flagging_witness :
    solve_diffraction_output ⟨some 0, some 0, some (-1)⟩ 1 1 1 2 0 =
      ⟨none, none, none⟩ :=
  (solve_diffraction_nan_flagging 0 0 (-1) 0 0 0 1 1 1 2 0).1 (by norm_num)

/-- The per-direction result tuple of `simulate_dmd`:
`(efields, sinc_efield_on, sinc_efield_off, diffraction_efield)`. -/
structure DmdPoint where
  efields : ℂ
  sinc_efield_on : ℝ
  sinc_efield_off : ℝ
  diffraction_efield : ℂ

/-- The per-mirror envelope factor: the source builds `mask_phases` as a zero
array and assigns `sinc_efield_off` where `pattern == 0` and
`sinc_efield_on` where `pattern == 1` (anything else stays `0`). -/
def dmd_mask_value (p : ℕ) (son soff : ℝ) : ℂ :=
  if p = 0 then (soff : ℂ) else if p = 1 then (son : ℂ) else 0

/-- Source `calc_output_angle(bvec)`, the per-output-direction kernel inside
`simulate_dmd`: coherent phase sum over the `ny x nx` mirror grid, with the
ON/OFF blaze envelopes (times `wx*wy`) as per-mirror weights. -/
def calc_output_angle (pattern : ℕ → ℕ → ℕ) (ny nx : ℕ)
    (wavelength gamma_on gamma_off dx dy wx wy : ℝ) (zshifts : ℕ → ℕ → ℝ)
    (uvec_in bvec : Vec3) : DmdPoint :=
  let amb := uvec_in - bvec
  let phase : ℕ → ℕ → ℂ := fun my mx =>
    Complex.exp (Complex.I * ((2 * Real.pi / wavelength *
      (dx * mx * amb.x + dy * my * amb.y + zshifts my mx * amb.z) : ℝ) : ℂ))
  let son := wx * wy * blaze_envelope wavelength gamma_on wx wy amb default_n_vec
  let soff := wx * wy * blaze_envelope wavelength gamma_off wx wy amb default_n_vec
  { efields := ∑ my in range ny, ∑ mx in range nx,
      dmd_mask_value (pattern my mx) son soff * phase my mx,
    sinc_efield_on := son,
    sinc_efield_off := soff,
    diffraction_efield := ∑ my in range ny, ∑ mx in range nx, phase my mx }

/-- Source `simulate_dmd(pattern, wavelength, gamma_on, gamma_off, dx, dy, wx, wy,
uvec_in, uvecs_out, zshifts)`: validates the binary-pattern and
width-not-exceeding-pitch preconditions (in that order) before any field
computation, then maps the per-direction kernel over the requested output
directions; `zshifts = none` defaults to a flat device. -/
def simulate_dmd (pattern : ℕ → ℕ → ℕ) (ny nx : ℕ)
    (wavelength gamma_on gamma_off dx dy wx wy : ℝ) (uvec_in : Vec3)
    (uvecs_out : List Vec3) (zshifts : Option (ℕ → ℕ → ℝ)) :
    Except String (List DmdPoint) :=
  if ∃ my < ny, ∃ mx < nx, pattern my mx ≠ 0 ∧ pattern my mx ≠ 1 then
    .error ("pattern must be binary. All entries should be 0 or 1.")
  else if dx < wx ∨ dy < wy then
    .error ("w must be <= d.")
  else
    .ok (uvecs_out.map (calc_output_angle pattern ny nx wavelength gamma_on gamma_off
      dx dy wx wy (zshifts.getD fun _ _ => 0) uvec_in))

/-- C6: `simulate_dmd` raises an error if and only if the pattern has an
entry outside `{0, 1}` or `wx > dx` or `wy > dy`; when the preconditions
hold it returns the computed fields without an exception. -/
theorem simulate_dmd_error_iff (pattern : ℕ → ℕ → ℕ) (ny nx : ℕ)
    (wavelength gamma_on gamma_off dx dy wx wy : ℝ) (uvec_in : Vec3)
    (uvecs_out : List Vec3) (zshifts : Option (ℕ → ℕ → ℝ)) :
    (∃ msg, simulate_dmd pattern ny nx wavelength gamma_on gamma_off dx dy wx wy
        uvec_in uvecs_out zshifts = .error msg) ↔
      (∃ my < ny, ∃ mx < nx, pattern my mx ≠ 0 ∧ pattern my mx ≠ 1) ∨
        dx < wx ∨ dy < wy := by
  unfold simulate_dmd
  split_ifs with hbin hwd
  · simpa using Or.inl hbin
  · simpa using Or.inr hwd
  · constructor
    · rintro ⟨msg, h⟩
      exact absurd h (by simp)
    · intro h
      rcases h with h | h
      · exact absurd h hbin
      · exact absurd h hwd

/-- Model of `np.fft.fftfreq(N)[k]`: `k/N` for the first `ceil(N/2)` entries, then
`(k-N)/N`. -/
def fftfreq (N k : ℕ) : ℝ :=
  if k < (N + 1) / 2 then (k : ℝ) / N else ((k : ℝ) - N) / N

/-- Index map of `np.fft.fftshift` (roll by `floor(N/2)`):
`fftshift(x)[i] = x[fftshift_idx N i]`. -/
def fftshift_idx (N i : ℕ) : ℕ := (i + (N - N / 2)) % N

/-- Index map of `np.fft.ifftshift`: `ifftshift(x)[j] = x[ifftshift_idx N j]`. -/
def ifftshift_idx (N j : ℕ) : ℕ := (j + N / 2) % N

/-- Model of `np.fft.fft2`: unnormalized 2D DFT with kernel
`exp(-2*pi*i*(ky*jy/ny + kx*jx/nx))`. -/
def fft2 (w : ℕ → ℕ → ℂ) (ny nx ky kx : ℕ) : ℂ :=
  ∑ jy in range ny, ∑ jx in range nx, w jy jx *
    Complex.exp (-(2 * (Real.pi : ℂ) * Complex.I) *
      ((ky : ℂ) * jy / ny + (kx : ℂ) * jx / nx))

/-- Composite `fftshift(fft2(ifftshift(w)))` evaluated at the (shifted) grid index
`(v, u)` — the composite used for `pattern_dft` in `simulate_dmd_dft`. -/
def shifted_fft2 (w : ℕ → ℕ → ℂ) (ny nx v u : ℕ) : ℂ :=
  fft2 (fun jy jx => w (ifftshift_idx ny jy) (ifftshift_idx nx jx)) ny nx
    (fftshift_idx ny v) (fftshift_idx nx u)

/-- Summing `h ((j + s) % N)` over a period is summing `h`. -/
lemma sum_range_rotate (N s : ℕ) (hN : 0 < N) (h : ℕ → ℂ) :
    ∑ j in range N, h ((j + s) % N) = ∑ m in range N, h m := by
  haveI : NeZero N := ⟨hN.ne'⟩
  rw [← Fin.sum_univ_eq_sum_range (fun j => h ((j + s) % N)) N,
    ← Fin.sum_univ_eq_sum_range h N]
  have hstep : ∀ i : Fin N, h ((i.val + s) % N) =
      (h ∘ Fin.val) (i + (⟨s % N, Nat.mod_lt s hN⟩ : Fin N)) := by
    intro i
    simp only [Function.comp_apply, Fin.add_def]
    rw [Nat.add_mod_mod]
  simp only [hstep]
  exact Equiv.sum_comp (Equiv.addRight (⟨s % N, Nat.mod_lt s hN⟩ : Fin N)) (h ∘ Fin.val)

/-- Rotating the weights of a geometric-phase sum by `s` extracts the phase
`exp(-c*s)`, provided the phase is `N`-periodic (`exp(c*N) = 1`). -/
lemma sum_rotate_exp (N : ℕ) (hN : 0 < N) (s : ℕ) (g : ℕ → ℂ) (c : ℂ)
    (hc : Complex.exp (c * N) = 1) :
    ∑ j in range N, g ((j + s) % N) * Complex.exp (c * j) =
      Complex.exp (-(c * s)) * ∑ m in range N, g m * Complex.exp (c * m) := by
  have hterm : ∀ j, g ((j + s) % N) * Complex.exp (c * j) =
      Complex.exp (-(c * s)) *
        ((fun m => g m * Complex.exp (c * m)) ((j + s) % N)) := by
    intro j
    have hdm : (j + s) = N * ((j + s) / N) + (j + s) % N := (Nat.div_add_mod (j + s) N).symm
    have hcast : (j : ℂ) = ((j + s) % N : ℕ) + ((j + s) / N : ℕ) * N - s := by
      have : ((j + s : ℕ) : ℂ) = (N : ℂ) * ((j + s) / N : ℕ) + ((j + s) % N : ℕ) := by
        exact_mod_cast congrArg (Nat.cast : ℕ → ℂ) hdm
      push_cast at this ⊢
      linear_combination this
    have hexp : Complex.exp (c * j) =
        Complex.exp (-(c * s)) * Complex.exp (c * ((j + s) % N : ℕ)) := by
      rw [hcast]
      rw [show c * (((j + s) % N : ℕ) + ((j + s) / N : ℕ) * N - s) =
        (-(c * s)) + c * ((j + s) % N : ℕ) + ((j + s) / N : ℕ) * (c * N) by ring]
      rw [Complex.exp_add, Complex.exp_add, Complex.exp_nat_mul, hc, one_pow, mul_one]
    rw [hexp]
    ring
  simp only [hterm]
  rw [← Finset.mul_sum]
  rw [sum_range_rotate N s hN (fun m => g m * Complex.exp (c * m))]

/-- Per-index phase rate of the DFT kernel at (shifted) frequency index `k`:
`-2*pi*i*k/N`. -/
def dft_c (N k : ℕ) : ℂ := -(2 * (Real.pi : ℂ) * Complex.I) * k / N

lemma exp_dft_c_mul_N (N k : ℕ) (hN : 0 < N) :
    Complex.exp (dft_c N k * N) = 1 := by
  have hNne : (N : ℂ) ≠ 0 := Nat.cast_ne_zero.mpr hN.ne'
  have harg : dft_c N k * N = ((-(k : ℤ) : ℤ) : ℂ) * (2 * (Real.pi : ℂ) * Complex.I) := by
    unfold dft_c
    rw [div_mul_cancel₀ _ hNne]
    push_cast
    ring
  rw [harg]
  exact_mod_cast Complex.exp_int_mul_two_pi_mul_I (-(k : ℤ))

/-- Closed form of `fftshift(fft2(ifftshift(w)))[v, u]`: the plain DFT of `w`
at phase rates `dft_c`, times the phase factors produced by the two index
shifts. -/
lemma shifted_fft2_closed (w : ℕ → ℕ → ℂ) (ny nx v u : ℕ) (hny : 0 < ny) (hnx : 0 < nx) :
    shifted_fft2 w ny nx v u =
      Complex.exp (-(dft_c nx (fftshift_idx nx u) * (nx / 2 : ℕ))) *
        (Complex.exp (-(dft_c ny (fftshift_idx ny v) * (ny / 2 : ℕ))) *
          ∑ my in range ny, ∑ mx in range nx, w my mx *
            (Complex.exp (dft_c ny (fftshift_idx ny v) * my) *
              Complex.exp (dft_c nx (fftshift_idx nx u) * mx))) := by
  have hcx := exp_dft_c_mul_N nx (fftshift_idx nx u) hnx
  have hcy := exp_dft_c_mul_N ny (fftshift_idx ny v) hny
  unfold shifted_fft2 fft2 ifftshift_idx
  have hexp : ∀ jy jx : ℕ,
      Complex.exp (-(2 * (Real.pi : ℂ) * Complex.I) *
        ((fftshift_idx ny v : ℂ) * jy / ny + (fftshift_idx nx u : ℂ) * jx / nx)) =
      Complex.exp (dft_c ny (fftshift_idx ny v) * jy) *
        Complex.exp (dft_c nx (fftshift_idx nx u) * jx) := by
    intro jy jx
    rw [← Complex.exp_add]
    congr 1
    unfold dft_c
    ring
  calc
    ∑ jy in range ny, ∑ jx in range nx,
        w ((jy + ny / 2) % ny) ((jx + nx / 2) % nx) *
          Complex.exp (-(2 * (Real.pi : ℂ) * Complex.I) *
            ((fftshift_idx ny v : ℂ) * jy / ny + (fftshift_idx nx u : ℂ) * jx / nx))
      = ∑ jy in range ny,
          (fun y => ∑ jx in range nx, w y ((jx + nx / 2) % nx) *
            Complex.exp (dft_c nx (fftshift_idx nx u) * jx)) ((jy + ny / 2) % ny) *
          Complex.exp (dft_c ny (fftshift_idx ny v) * jy) := by
        refine Finset.sum_congr rfl fun jy _ => ?_
        simp only
        rw [Finset.sum_mul]
        refine Finset.sum_congr rfl fun jx _ => ?_
        rw [hexp jy jx]
        ring
    _ = Complex.exp (-(dft_c ny (fftshift_idx ny v) * (ny / 2 : ℕ))) *
          ∑ my in range ny, (fun y => ∑ jx in range nx, w y ((jx + nx / 2) % nx) *
            Complex.exp (dft_c nx (fftshift_idx nx u) * jx)) my *
            Complex.exp (dft_c ny (fftshift_idx ny v) * my) := by
        exact sum_rotate_exp ny hny (ny / 2)
          (fun y => ∑ jx in range nx, w y ((jx + nx / 2) % nx) *
            Complex.exp (dft_c nx (fftshift_idx nx u) * jx))
          (dft_c ny (fftshift_idx ny v)) hcy
    _ = Complex.exp (-(dft_c ny (fftshift_idx ny v) * (ny / 2 : ℕ))) *
          ∑ my in range ny,
            (Complex.exp (-(dft_c nx (fftshift_idx nx u) * (nx / 2 : ℕ))) *
              ∑ mx in range nx, w my mx * Complex.exp (dft_c nx (fftshift_idx nx u) * mx)) *
            Complex.exp (dft_c ny (fftshift_idx ny v) * my) := by
        congr 1
        refine Finset.sum_congr rfl fun my _ => ?_
        simp only
        rw [sum_rotate_exp nx hnx (nx / 2) (fun mx => w my mx) _ hcx]
    _ = Complex.exp (-(dft_c nx (fftshift_idx nx u) * (nx / 2 : ℕ))) *
          (Complex.exp (-(dft_c ny (fftshift_idx ny v) * (ny / 2 : ℕ))) *
            ∑ my in range ny, ∑ mx in range nx, w my mx *
              (Complex.exp (dft_c ny (fftshift_idx ny v) * my) *
                Complex.exp (dft_c nx (fftshift_idx nx u) * mx))) := by
        simp only [Finset.mul_sum, Finset.sum_mul]
        refine Finset.sum_congr rfl fun my _ => ?_
        refine Finset.sum_congr rfl fun mx _ => ?_
        ring

/-- The DFT-frequency phase `exp(2*pi*i*fftfreq(N)[k]*m)` equals the
index-based phase `exp(-(dft_c N k * m))`: the `k` vs `k - N` branch of
`fftfreq` only shifts the argument by an integer multiple of `2*pi*i`. -/
lemma exp_fftfreq_mul (N k m : ℕ) (hN : 0 < N) :
    Complex.exp (2 * (Real.pi : ℂ) * Complex.I * ((fftfreq N k : ℝ) : ℂ) * m) =
      Complex.exp (-(dft_c N k * m)) := by
  have hNne : (N : ℂ) ≠ 0 := Nat.cast_ne_zero.mpr hN.ne'
  unfold fftfreq dft_c
  split_ifs with h
  · congr 1
    push_cast
    field_simp
  · have harg : 2 * (Real.pi : ℂ) * Complex.I * ((((k : ℝ) - N) / N : ℝ) : ℂ) * m =
        -(-(2 * (Real.pi : ℂ) * Complex.I) * k / N * m) +
          ((-(m : ℤ) : ℤ) : ℂ) * (2 * (Real.pi : ℂ) * Complex.I) := by
      push_cast
      field_simp
      ring
    rw [harg, Complex.exp_add]
    rw [Complex.exp_int_mul_two_pi_mul_I (-(m : ℤ))]
    rw [mul_one]

lemma conj_dft_c (N k : ℕ) : (starRingEnd ℂ) (dft_c N k) = -(dft_c N k) := by
  unfold dft_c
  simp only [map_div₀, map_mul, map_neg, Complex.conj_I, map_natCast, map_ofNat,
    Complex.conj_ofReal]
  ring

/-- Conjugate of the shifted 2D DFT of a REAL-valued grid: the shift phases
conjugate and the kernel's exponent flips sign. -/
lemma conj_shifted_closed (w : ℕ → ℕ → ℂ) (ny nx v u : ℕ) (hny : 0 < ny) (hnx : 0 < nx)
    (hreal : ∀ my mx, (starRingEnd ℂ) (w my mx) = w my mx) :
    (starRingEnd ℂ) (shifted_fft2 w ny nx v u) =
      Complex.exp (dft_c nx (fftshift_idx nx u) * (nx / 2 : ℕ)) *
        (Complex.exp (dft_c ny (fftshift_idx ny v) * (ny / 2 : ℕ)) *
          ∑ my in range ny, ∑ mx in range nx, w my mx *
            (Complex.exp (-(dft_c ny (fftshift_idx ny v) * my)) *
              Complex.exp (-(dft_c nx (fftshift_idx nx u) * mx)))) := by
  rw [shifted_fft2_closed w ny nx v u hny hnx]
  rw [map_mul, map_mul, map_sum]
  rw [← Complex.exp_conj, ← Complex.exp_conj]
  rw [map_neg, map_mul, map_neg, map_mul, conj_dft_c, conj_dft_c, map_natCast, map_natCast]
  congr 2
  · congr 1
    ring
  · congr 1
    ring
  · refine Finset.sum_congr rfl fun my _ => ?_
    rw [map_sum]
    refine Finset.sum_congr rfl fun mx _ => ?_
    rw [map_mul, hreal, map_mul]
    rw [← Complex.exp_conj, ← Complex.exp_conj]
    rw [map_mul, conj_dft_c, map_natCast, map_mul, conj_dft_c, map_natCast]
    congr 2
    · congr 1
      ring
    · congr 1
      ring

/-- On binary entries the mask value is `p*son + (1-p)*soff`. -/
lemma dmd_mask_value_binary (p : ℕ) (hp : p = 0 ∨ p = 1) (son soff : ℝ) :
    dmd_mask_value p son soff = (p : ℂ) * son + (1 - (p : ℂ)) * soff := by
  rcases hp with h | h <;> subst h <;> simp [dmd_mask_value]

/-- The result tuple of `simulate_dmd_dft`:
`(efields, pattern_dft, pattern_complement_dft, sinc_efield_on,
sinc_efield_off, bvec)`. -/
structure DftPoint where
  efields : ℂ
  pattern_dft : ℂ
  pattern_complement_dft : ℂ
  sinc_efield_on : ℝ
  sinc_efield_off : ℝ
  bvec : Vec3

/-- Source `simulate_dmd_dft(pattern, efield_profile, wavelength, gamma_on,
gamma_off, dx, dy, wx, wy, uvec_in, order)` evaluated at the (shifted) DFT
grid index `(v, u)` (scalar kernel of the vectorized source function; the
source's `np.sqrt` yields NaN for a negative radicand in `bvec`, which is
outside the feasible domain considered in the theorems below). -/
def simulate_dmd_dft (pattern : ℕ → ℕ → ℕ) (efield_profile : ℕ → ℕ → ℂ) (ny nx : ℕ)
    (wavelength gamma_on gamma_off dx dy wx wy : ℝ) (uvec_in : Vec3)
    (order_x order_y : ℤ) (v u : ℕ) : DftPoint :=
  let fx := fftfreq nx (fftshift_idx nx u)
  let fy := fftfreq ny (fftshift_idx ny v)
  let amb_x := wavelength / dx * (order_x + fx)
  let amb_y := wavelength / dy * (order_y + fy)
  let bx := uvec_in.x - amb_x
  let b_y := uvec_in.y - amb_y
  let bvec : Vec3 := ⟨bx, b_y, Real.sqrt (1 - bx ^ 2 - b_y ^ 2)⟩
  let amb := uvec_in - bvec
  let son := wx * wy * blaze_envelope wavelength gamma_on wx wy amb default_n_vec
  let soff := wx * wy * blaze_envelope wavelength gamma_off wx wy amb default_n_vec
  let pdft := shifted_fft2
    (fun my mx => (pattern my mx : ℂ) * efield_profile my mx) ny nx v u
  let pcdft := shifted_fft2
    (fun my mx => (1 - (pattern my mx : ℂ)) * efield_profile my mx) ny nx v u
  { efields := pdft * son + pcdft * soff,
    pattern_dft := pdft,
    pattern_complement_dft := pcdft,
    sinc_efield_on := son,
    sinc_efield_off := soff,
    bvec := bvec }

/-- C1 amended: at a feasible DFT grid direction, the brute-force
`simulate_dmd` field (computed through its precondition checks, flat device,
uniform unit illumination) equals the COMPLEX CONJUGATE of the
`simulate_dmd_dft` field times the fftshift phase
`exp(2*pi*i*(fx*(nx/2) + fy*(ny/2)))` — not the `simulate_dmd_dft` field
itself: the brute-force sum uses kernel `exp(+i*k*(a-b).r)` while `np.fft.fft2`
uses `exp(-2*pi*i*f*m)`, and the `ifftshift` of the pattern adds the phase. -/
theorem simulate_dmd_agrees_dft_conj
    (pattern : ℕ → ℕ → ℕ) (ny nx : ℕ)
    (wavelength gamma_on gamma_off dx dy wx wy : ℝ) (uvec_in : Vec3)
    (order_x order_y : ℤ) (v u : ℕ)
    (hbin : ∀ my < ny, ∀ mx < nx, pattern my mx = 0 ∨ pattern my mx = 1)
    (hny : 0 < ny) (hnx : 0 < nx) (hv : v < ny) (hu : u < nx)
    (hwl : wavelength ≠ 0) (hdx : dx ≠ 0) (hdy : dy ≠ 0)
    (hwxd : wx ≤ dx) (hwyd : wy ≤ dy)
    (hunit : uvec_in.x ^ 2 + uvec_in.y ^ 2 + uvec_in.z ^ 2 = 1)
    (hfeas : 0 ≤ 1 -
      ((simulate_dmd_dft pattern (fun _ _ => 1) ny nx wavelength gamma_on gamma_off
          dx dy wx wy uvec_in order_x order_y v u).bvec.x) ^ 2 -
      ((simulate_dmd_dft pattern (fun _ _ => 1) ny nx wavelength gamma_on gamma_off
          dx dy wx wy uvec_in order_x order_y v u).bvec.y) ^ 2) :
    simulate_dmd pattern ny nx wavelength gamma_on gamma_off dx dy wx wy uvec_in
        [(simulate_dmd_dft pattern (fun _ _ => 1) ny nx wavelength gamma_on gamma_off
            dx dy wx wy uvec_in order_x order_y v u).bvec] none =
      Except.ok [calc_output_angle pattern ny nx wavelength gamma_on gamma_off dx dy wx wy
        (fun _ _ => 0) uvec_in
        (simulate_dmd_dft pattern (fun _ _ => 1) ny nx wavelength gamma_on gamma_off
            dx dy wx wy uvec_in order_x order_y v u).bvec] ∧
    (calc_output_angle pattern ny nx wavelength gamma_on gamma_off dx dy wx wy
        (fun _ _ => 0) uvec_in
        (simulate_dmd_dft pattern (fun _ _ => 1) ny nx wavelength gamma_on gamma_off
            dx dy wx wy uvec_in order_x order_y v u).bvec).efields =
      Complex.exp (2 * (Real.pi : ℂ) * Complex.I *
          (((fftfreq nx (fftshift_idx nx u) : ℝ) : ℂ) * (nx / 2 : ℕ) +
            ((fftfreq ny (fftshift_idx ny v) : ℝ) : ℂ) * (ny / 2 : ℕ))) *
        (starRingEnd ℂ) ((simulate_dmd_dft pattern (fun _ _ => 1) ny nx wavelength
            gamma_on gamma_off dx dy wx wy uvec_in order_x order_y v u).efields) := by
  set S := simulate_dmd_dft pattern (fun _ _ => 1) ny nx wavelength gamma_on gamma_off
    dx dy wx wy uvec_in order_x order_y v u with hS
  have hc1 : ¬∃ my < ny, ∃ mx < nx, pattern my mx ≠ 0 ∧ pattern my mx ≠ 1 := by
    rintro ⟨my, hmy, mx, hmx, h0, h1⟩
    rcases hbin my hmy mx hmx with h | h
    · exact h0 h
    · exact h1 h
  have hc2 : ¬(dx < wx ∨ dy < wy) := by
    rintro (h | h)
    · linarith
    · linarith
  constructor
  · unfold simulate_dmd
    rw [if_neg hc1, if_neg hc2]
    rfl
  · -- abbreviations
    have hBx : S.bvec.x =
        uvec_in.x - wavelength / dx * (order_x + fftfreq nx (fftshift_idx nx u)) := rfl
    have hBy : S.bvec.y =
        uvec_in.y - wavelength / dy * (order_y + fftfreq ny (fftshift_idx ny v)) := rfl
    have hambx : (uvec_in - S.bvec).x =
        wavelength / dx * ((order_x : ℝ) + fftfreq nx (fftshift_idx nx u)) := by
      show uvec_in.x - S.bvec.x = _
      rw [hBx]
      ring
    have hamby : (uvec_in - S.bvec).y =
        wavelength / dy * ((order_y : ℝ) + fftfreq ny (fftshift_idx ny v)) := by
      show uvec_in.y - S.bvec.y = _
      rw [hBy]
      ring
    have hefields : S.efields =
        shifted_fft2 (fun my mx => (pattern my mx : ℂ) * 1) ny nx v u *
          ((wx * wy * blaze_envelope wavelength gamma_on wx wy (uvec_in - S.bvec)
            default_n_vec : ℝ) : ℂ) +
        shifted_fft2 (fun my mx => (1 - (pattern my mx : ℂ)) * 1) ny nx v u *
          ((wx * wy * blaze_envelope wavelength gamma_off wx wy (uvec_in - S.bvec)
            default_n_vec : ℝ) : ℂ) := rfl
    set son := wx * wy * blaze_envelope wavelength gamma_on wx wy (uvec_in - S.bvec)
      default_n_vec with hson
    set soff := wx * wy * blaze_envelope wavelength gamma_off wx wy (uvec_in - S.bvec)
      default_n_vec with hsoff
    have hdirect : (calc_output_angle pattern ny nx wavelength gamma_on gamma_off
        dx dy wx wy (fun _ _ => 0) uvec_in S.bvec).efields =
        ∑ my in range ny, ∑ mx in range nx,
          dmd_mask_value (pattern my mx) son soff *
            Complex.exp (Complex.I * ((2 * Real.pi / wavelength *
              (dx * mx * (uvec_in - S.bvec).x + dy * my * (uvec_in - S.bvec).y +
                0 * (uvec_in - S.bvec).z) : ℝ) : ℂ)) := rfl
    have hphase : ∀ my mx : ℕ,
        Complex.exp (Complex.I * ((2 * Real.pi / wavelength *
          (dx * mx * (uvec_in - S.bvec).x + dy * my * (uvec_in - S.bvec).y +
            0 * (uvec_in - S.bvec).z) : ℝ) : ℂ)) =
        Complex.exp (-(dft_c ny (fftshift_idx ny v) * my)) *
          Complex.exp (-(dft_c nx (fftshift_idx nx u) * mx)) := by
      intro my mx
      have hr : (2 * Real.pi / wavelength *
          (dx * mx * (uvec_in - S.bvec).x + dy * my * (uvec_in - S.bvec).y +
            0 * (uvec_in - S.bvec).z) : ℝ) =
          2 * Real.pi * ((mx : ℝ) * (order_x : ℝ)) +
          2 * Real.pi * ((my : ℝ) * (order_y : ℝ)) +
          2 * Real.pi * (fftfreq nx (fftshift_idx nx u) * mx) +
          2 * Real.pi * (fftfreq ny (fftshift_idx ny v) * my) := by
        rw [hambx, hamby]
        field_simp
        ring
      rw [hr]
      have h1 : Complex.I * ((2 * Real.pi * ((mx : ℝ) * (order_x : ℝ)) +
          2 * Real.pi * ((my : ℝ) * (order_y : ℝ)) +
          2 * Real.pi * (fftfreq nx (fftshift_idx nx u) * mx) +
          2 * Real.pi * (fftfreq ny (fftshift_idx ny v) * my) : ℝ) : ℂ) =
          (((mx : ℤ) * order_x : ℤ) : ℂ) * (2 * (Real.pi : ℂ) * Complex.I) +
          (((my : ℤ) * order_y : ℤ) : ℂ) * (2 * (Real.pi : ℂ) * Complex.I) +
          (2 * (Real.pi : ℂ) * Complex.I *
            ((fftfreq nx (fftshift_idx nx u) : ℝ) : ℂ) * mx +
          2 * (Real.pi : ℂ) * Complex.I *
            ((fftfreq ny (fftshift_idx ny v) : ℝ) : ℂ) * my) := by
        push_cast
        ring
      rw [h1]
      rw [Complex.exp_add, Complex.exp_add]
      rw [Complex.exp_int_mul_two_pi_mul_I, Complex.exp_int_mul_two_pi_mul_I]
      rw [Complex.exp_add]
      rw [exp_fftfreq_mul nx (fftshift_idx nx u) mx hnx,
        exp_fftfreq_mul ny (fftshift_idx ny v) my hny]
      ring
    have hconjP := conj_shifted_closed (fun my mx => (pattern my mx : ℂ) * 1) ny nx v u
      hny hnx (fun my mx => by simp)
    have hconjC := conj_shifted_closed (fun my mx => (1 - (pattern my mx : ℂ)) * 1) ny nx
      v u hny hnx (fun my mx => by simp)
    have hpre : Complex.exp (2 * (Real.pi : ℂ) * Complex.I *
        (((fftfreq nx (fftshift_idx nx u) : ℝ) : ℂ) * (nx / 2 : ℕ) +
          ((fftfreq ny (fftshift_idx ny v) : ℝ) : ℂ) * (ny / 2 : ℕ))) =
        Complex.exp (-(dft_c nx (fftshift_idx nx u) * (nx / 2 : ℕ))) *
          Complex.exp (-(dft_c ny (fftshift_idx ny v) * (ny / 2 : ℕ))) := by
      rw [← exp_fftfreq_mul nx (fftshift_idx nx u) (nx / 2) hnx,
        ← exp_fftfreq_mul ny (fftshift_idx ny v) (ny / 2) hny]
      rw [← Complex.exp_add]
      congr 1
      ring
    have hcancel : ∀ z : ℂ, Complex.exp (-z) * Complex.exp z = 1 := by
      intro z
      rw [← Complex.exp_add]
      simp
    rw [hdirect, hefields]
    simp only [hphase]
    rw [map_add, map_mul, map_mul, Complex.conj_ofReal, Complex.conj_ofReal]
    rw [hconjP, hconjC, hpre]
    set cx := dft_c nx (fftshift_idx nx u)
    set cy := dft_c ny (fftshift_idx ny v)
    set EX := Complex.exp (-(cx * ((nx / 2 : ℕ) : ℂ)))
    set EY := Complex.exp (-(cy * ((ny / 2 : ℕ) : ℂ)))
    set PX := Complex.exp (cx * ((nx / 2 : ℕ) : ℂ))
    set PY := Complex.exp (cy * ((ny / 2 : ℕ) : ℂ))
    have hEXPX : EX * PX = 1 := hcancel _
    have hEYPY : EY * PY = 1 := hcancel _
    set T1 := ∑ my in range ny, ∑ mx in range nx, ((pattern my mx : ℂ) * 1) *
      (Complex.exp (-(cy * my)) * Complex.exp (-(cx * mx)))
    set T2 := ∑ my in range ny, ∑ mx in range nx, ((1 - (pattern my mx : ℂ)) * 1) *
      (Complex.exp (-(cy * my)) * Complex.exp (-(cx * mx)))
    have hrhs : EX * EY * (PX * (PY * T1) * (son : ℂ) + PX * (PY * T2) * (soff : ℂ)) =
        T1 * son + T2 * soff := by
      have : EX * EY * (PX * (PY * T1) * (son : ℂ) + PX * (PY * T2) * (soff : ℂ)) =
          (EX * PX) * (EY * PY) * (T1 * son + T2 * soff) := by ring
      rw [this, hEXPX, hEYPY, one_mul, one_mul]
    rw [hrhs]
    rw [Finset.sum_mul, Finset.sum_mul, ← Finset.sum_add_distrib]
    refine Finset.sum_congr rfl fun my hmy => ?_
    rw [Finset.sum_mul, Finset.sum_mul, ← Finset.sum_add_distrib]
    refine Finset.sum_congr rfl fun mx hmx => ?_
    rw [dmd_mask_value_binary (pattern my mx)
      (hbin my (Finset.mem_range.mp hmy) mx (Finset.mem_range.mp hmx)) son soff]
    ring

/-- Witness for C1 (amended) with the all-ones 1x1 pattern, unit geometry,
normal incidence, order `(0, 0)`, grid point `(0, 0)`. -/
theorem simulate_dmd_agrees_dft_conj_witness :
    simulate_dmd (fun _ _ => 1) 1 1 1 0 0 1 1 1 1 ⟨0, 0, -1⟩
        [(simulate_dmd_dft (fun _ _ => 1) (fun _ _ => 1) 1 1 1 0 0 1 1 1 1 ⟨0, 0, -1⟩
            0 0 0 0).bvec] none =
      Except.ok [calc_output_angle (fun _ _ => 1) 1 1 1 0 0 1 1 1 1
        (fun _ _ => 0) ⟨0, 0, -1⟩
        (simulate_dmd_dft (fun _ _ => 1) (fun _ _ => 1) 1 1 1 0 0 1 1 1 1 ⟨0, 0, -1⟩
            0 0 0 0).bvec] ∧
    (calc_output_angle (fun _ _ => 1) 1 1 1 0 0 1 1 1 1
        (fun _ _ => 0) ⟨0, 0, -1⟩
        (simulate_dmd_dft (fun _ _ => 1) (fun _ _ => 1) 1 1 1 0 0 1 1 1 1 ⟨0, 0, -1⟩
            0 0 0 0).bvec).efields =
      Complex.exp (2 * (Real.pi : ℂ) * Complex.I *
          (((fftfreq 1 (fftshift_idx 1 0) : ℝ) : ℂ) * ((1 : ℕ) / 2 : ℕ) +
            ((fftfreq 1 (fftshift_idx 1 0) : ℝ) : ℂ) * ((1 : ℕ) / 2 : ℕ))) *
        (starRingEnd ℂ) ((simulate_dmd_dft (fun _ _ => 1) (fun _ _ => 1) 1 1 1 0 0
            1 1 1 1 ⟨0, 0, -1⟩ 0 0 0 0).efields) :=
  simulate_dmd_agrees_dft_conj (fun _ _ => 1) 1 1 1 0 0 1 1 1 1 ⟨0, 0, -1⟩ 0 0 0 0
    (fun _ _ _ _ => Or.inr rfl) (by norm_num) (by norm_num) (by norm_num) (by norm_num)
    (by norm_num) (by norm_num) (by norm_num) (by norm_num) (by norm_num) (by norm_num)
    (by norm_num [simulate_dmd_dft, fftfreq, fftshift_idx])

lemma one_div_sqrt_two_sq : (1 / Real.sqrt 2) ^ 2 = 1 / 2 := by
  rw [div_pow, one_pow, Real.sq_sqrt] <;> norm_num

lemma one_div_sqrt_two_mul : 1 / Real.sqrt 2 * (1 / Real.sqrt 2) = 1 / 2 := by
  rw [div_mul_div_comm, one_mul, sqrt_two_mul_self]

/-- C1 counterexample: 1x2 pattern `[1, 0]`, `wavelength = 2`,
`gamma_on = 0`, `gamma_off = pi`, `dx = dy = wx = 2`, `wy = 1`, unit input
`(1/2, 0, -sqrt(3)/2)`, order `(1, 0)`, grid point `(0, 0)` (feasible:
`bvec = (0,0,1)`).  All preconditions of the claim hold, yet the brute-force
field is `(4 - 4*sqrt 2)/pi` while the DFT field is `(4*sqrt 2 - 4)/pi`. -/
theorem simulate_dmd_dft_disagrees_counterexample :
    ((1 : ℝ) / 2) ^ 2 + (0 : ℝ) ^ 2 + (-(Real.sqrt 3) / 2) ^ 2 = 1 ∧
    (2 : ℝ) ≤ 2 ∧ (1 : ℝ) ≤ 2 ∧
    (∀ my < 1, ∀ mx < 2, (fun (_ mx : ℕ) => if mx = 0 then 1 else 0) my mx = 0 ∨
      (fun (_ mx : ℕ) => if mx = 0 then 1 else 0) my mx = 1) ∧
    (calc_output_angle (fun _ mx => if mx = 0 then 1 else 0) 1 2 2 0 Real.pi 2 2 2 1
        (fun _ _ => 0) ⟨1 / 2, 0, -(Real.sqrt 3) / 2⟩
        (simulate_dmd_dft (fun _ mx => if mx = 0 then 1 else 0) (fun _ _ => 1) 1 2
          2 0 Real.pi 2 2 2 1 ⟨1 / 2, 0, -(Real.sqrt 3) / 2⟩ 1 0 0 0).bvec).efields ≠
      (simulate_dmd_dft (fun _ mx => if mx = 0 then 1 else 0) (fun _ _ => 1) 1 2
        2 0 Real.pi 2 2 2 1 ⟨1 / 2, 0, -(Real.sqrt 3) / 2⟩ 1 0 0 0).efields := by
  have h3 : Real.sqrt 3 ^ 2 = 3 := Real.sq_sqrt (by norm_num)
  refine ⟨by linear_combination (1 / 4 : ℝ) * h3, le_refl 2, by norm_num, ?_, ?_⟩
  · intro my _ mx _
    by_cases h : mx = 0
    · right
      simp [h]
    · left
      simp [h]
  · set p : ℕ → ℕ → ℕ := fun _ mx => if mx = 0 then 1 else 0 with hp
    set a : Vec3 := ⟨1 / 2, 0, -(Real.sqrt 3) / 2⟩ with ha
    set S := simulate_dmd_dft p (fun _ _ => 1) 1 2 2 0 Real.pi 2 2 2 1 a 1 0 0 0 with hS
    have hfx : fftfreq 2 (fftshift_idx 2 0) = -(1 / 2) := by
      norm_num [fftfreq, fftshift_idx]
    have hfy : fftfreq 1 (fftshift_idx 1 0) = 0 := by
      norm_num [fftfreq, fftshift_idx]
    have hB : S.bvec = ⟨0, 0, 1⟩ := by
      show (⟨a.x - 2 / 2 * (((1 : ℤ) : ℝ) + fftfreq 2 (fftshift_idx 2 0)),
        a.y - 2 / 2 * (((0 : ℤ) : ℝ) + fftfreq 1 (fftshift_idx 1 0)),
        Real.sqrt (1 - (a.x - 2 / 2 * (((1 : ℤ) : ℝ) + fftfreq 2 (fftshift_idx 2 0))) ^ 2 -
          (a.y - 2 / 2 * (((0 : ℤ) : ℝ) + fftfreq 1 (fftshift_idx 1 0))) ^ 2)⟩ : Vec3) =
        ⟨0, 0, 1⟩
      rw [hfx, hfy, ha]
      simp only [Vec3.mk.injEq]
      norm_num [Real.sqrt_one]
    have hamb : a - S.bvec = ⟨1 / 2, 0, -(Real.sqrt 3) / 2 - 1⟩ := by
      rw [hB, ha, Vec3.sub_def]
      simp only [Vec3.mk.injEq]
      norm_num
    have hAp0 : blaze_condition_fn 0 ⟨1 / 2, 0, -(Real.sqrt 3) / 2 - 1⟩ .plus
        default_n_vec = 1 / 2 := by
      unfold blaze_condition_fn default_n_vec
      rw [Real.cos_zero, Real.sin_zero]
      ring
    have hAm0 : blaze_condition_fn 0 ⟨1 / 2, 0, -(Real.sqrt 3) / 2 - 1⟩ .minus
        default_n_vec = 0 := by
      unfold blaze_condition_fn default_n_vec
      rw [Real.cos_zero, Real.sin_zero]
      ring
    have hApPi : blaze_condition_fn Real.pi ⟨1 / 2, 0, -(Real.sqrt 3) / 2 - 1⟩ .plus
        default_n_vec = 0 := by
      unfold blaze_condition_fn default_n_vec
      rw [Real.cos_pi, Real.sin_pi]
      linear_combination one_div_sqrt_two_sq
    have hAmPi : blaze_condition_fn Real.pi ⟨1 / 2, 0, -(Real.sqrt 3) / 2 - 1⟩ .minus
        default_n_vec = 1 / 2 := by
      unfold blaze_condition_fn default_n_vec
      rw [Real.cos_pi, Real.sin_pi]
      linear_combination one_div_sqrt_two_mul
    have henvon : blaze_envelope 2 0 2 1 ⟨1 / 2, 0, -(Real.sqrt 3) / 2 - 1⟩
        default_n_vec = 2 / Real.pi := by
      unfold blaze_envelope
      rw [hAp0, hAm0]
      rw [show (0.5 * (2 * Real.pi / 2) * 2 * (1 / 2 : ℝ)) = Real.pi / 2 by ring]
      rw [show (0.5 * (2 * Real.pi / 2) * 1 * (0 : ℝ)) = 0 by ring]
      unfold sinc_fn
      rw [if_neg (div_ne_zero Real.pi_ne_zero two_ne_zero), if_pos rfl]
      rw [Real.sin_pi_div_two, mul_one, one_div_div]
    have henvoff : blaze_envelope 2 Real.pi 2 1 ⟨1 / 2, 0, -(Real.sqrt 3) / 2 - 1⟩
        default_n_vec = 2 * Real.sqrt 2 / Real.pi := by
      unfold blaze_envelope
      rw [hApPi, hAmPi]
      rw [show (0.5 * (2 * Real.pi / 2) * 2 * (0 : ℝ)) = 0 by ring]
      rw [show (0.5 * (2 * Real.pi / 2) * 1 * (1 / 2 : ℝ)) = Real.pi / 4 by ring]
      unfold sinc_fn
      rw [if_pos rfl, if_neg (div_ne_zero Real.pi_ne_zero (by norm_num))]
      rw [Real.sin_pi_div_four, one_mul]
      rw [div_div_div_comm]
      field_simp
      ring
    have hp00 : p 0 0 = 1 := by simp [hp]
    have hp01 : p 0 1 = 0 := by simp [hp]
    have hdirect : (calc_output_angle p 1 2 2 0 Real.pi 2 2 2 1
        (fun _ _ => 0) a S.bvec).efields =
        ∑ my in range 1, ∑ mx in range 2,
          dmd_mask_value (p my mx)
            (2 * 1 * blaze_envelope 2 0 2 1 (a - S.bvec) default_n_vec)
            (2 * 1 * blaze_envelope 2 Real.pi 2 1 (a - S.bvec) default_n_vec) *
            Complex.exp (Complex.I * ((2 * Real.pi / 2 *
              (2 * mx * (a - S.bvec).x + 2 * my * (a - S.bvec).y +
                0 * (a - S.bvec).z) : ℝ) : ℂ)) := rfl
    have hphase0 : Complex.exp (Complex.I * ((2 * Real.pi / 2 *
        (2 * ((0 : ℕ) : ℝ) * (a - S.bvec).x + 2 * ((0 : ℕ) : ℝ) * (a - S.bvec).y +
          0 * (a - S.bvec).z) : ℝ) : ℂ)) = 1 := by
      norm_num [Complex.exp_zero]
    have hphase1 : Complex.exp (Complex.I * ((2 * Real.pi / 2 *
        (2 * ((1 : ℕ) : ℝ) * (a - S.bvec).x + 2 * ((0 : ℕ) : ℝ) * (a - S.bvec).y +
          0 * (a - S.bvec).z) : ℝ) : ℂ)) = -1 := by
      rw [show (2 * Real.pi / 2 *
        (2 * ((1 : ℕ) : ℝ) * (a - S.bvec).x + 2 * ((0 : ℕ) : ℝ) * (a - S.bvec).y +
          0 * (a - S.bvec).z) : ℝ) = Real.pi * (a - S.bvec).x * 2 by push_cast; ring]
      rw [hamb]
      rw [show (Real.pi * (⟨1 / 2, 0, -(Real.sqrt 3) / 2 - 1⟩ : Vec3).x * 2 : ℝ) =
        Real.pi by show Real.pi * (1 / 2) * 2 = Real.pi; ring]
      rw [show Complex.I * ((Real.pi : ℝ) : ℂ) = (Real.pi : ℂ) * Complex.I by ring]
      exact Complex.exp_pi_mul_I
    rw [hdirect, hamb, henvon, henvoff]
    rw [Finset.sum_range_one, Finset.sum_range_succ, Finset.sum_range_one]
    rw [hp00, hp01]
    rw [show dmd_mask_value 1 (2 * 1 * (2 / Real.pi)) (2 * 1 * (2 * Real.sqrt 2 / Real.pi)) =
      ((2 * 1 * (2 / Real.pi) : ℝ) : ℂ) by simp [dmd_mask_value]]
    rw [show dmd_mask_value 0 (2 * 1 * (2 / Real.pi)) (2 * 1 * (2 * Real.sqrt 2 / Real.pi)) =
      ((2 * 1 * (2 * Real.sqrt 2 / Real.pi) : ℝ) : ℂ) by simp [dmd_mask_value]]
    rw [hamb] at hphase0 hphase1
    rw [hphase0, hphase1]
    have hdft : S.efields =
        shifted_fft2 (fun my mx => (p my mx : ℂ) * 1) 1 2 0 0 *
          ((2 * 1 * blaze_envelope 2 0 2 1 (a - S.bvec) default_n_vec : ℝ) : ℂ) +
        shifted_fft2 (fun my mx => (1 - (p my mx : ℂ)) * 1) 1 2 0 0 *
          ((2 * 1 * blaze_envelope 2 Real.pi 2 1 (a - S.bvec) default_n_vec : ℝ) : ℂ) := rfl
    have hexp_neg_pi : Complex.exp (-(2 * (Real.pi : ℂ) * Complex.I) *
        (((0 : ℕ) : ℂ) * ((0 : ℕ) : ℂ) / ((1 : ℕ) : ℂ) +
          ((1 : ℕ) : ℂ) * ((1 : ℕ) : ℂ) / ((2 : ℕ) : ℂ))) = -1 := by
      rw [show (-(2 * (Real.pi : ℂ) * Complex.I) *
        (((0 : ℕ) : ℂ) * ((0 : ℕ) : ℂ) / ((1 : ℕ) : ℂ) +
          ((1 : ℕ) : ℂ) * ((1 : ℕ) : ℂ) / ((2 : ℕ) : ℂ))) = -((Real.pi : ℂ) * Complex.I) by
          push_cast; ring]
      rw [Complex.exp_neg, Complex.exp_pi_mul_I]
      norm_num
    have hPD : shifted_fft2 (fun my mx => (p my mx : ℂ) * 1) 1 2 0 0 = -1 := by
      unfold shifted_fft2 fft2
      rw [Finset.sum_range_one, Finset.sum_range_succ, Finset.sum_range_one]
      simp only []
      rw [show ifftshift_idx 1 0 = 0 by norm_num [ifftshift_idx]]
      rw [show ifftshift_idx 2 0 = 1 by norm_num [ifftshift_idx]]
      rw [show ifftshift_idx 2 1 = 0 by norm_num [ifftshift_idx]]
      rw [show fftshift_idx 1 0 = 0 by norm_num [fftshift_idx]]
      rw [show fftshift_idx 2 0 = 1 by norm_num [fftshift_idx]]
      rw [hp00, hp01]
      rw [hexp_neg_pi]
      norm_num [Complex.exp_zero]
    have hCD : shifted_fft2 (fun my mx => (1 - (p my mx : ℂ)) * 1) 1 2 0 0 = 1 := by
      unfold shifted_fft2 fft2
      rw [Finset.sum_range_one, Finset.sum_range_succ, Finset.sum_range_one]
      simp only []
      rw [show ifftshift_idx 1 0 = 0 by norm_num [ifftshift_idx]]
      rw [show ifftshift_idx 2 0 = 1 by norm_num [ifftshift_idx]]
      rw [show ifftshift_idx 2 1 = 0 by norm_num [ifftshift_idx]]
      rw [show fftshift_idx 1 0 = 0 by norm_num [fftshift_idx]]
      rw [show fftshift_idx 2 0 = 1 by norm_num [fftshift_idx]]
      rw [hp00, hp01]
      norm_num [Complex.exp_zero]
    rw [hdft, hamb, henvon, henvoff, hPD, hCD]
    intro heq
    have hre := congrArg Complex.re heq
    simp only [Complex.add_re, Complex.mul_re, Complex.ofReal_re, Complex.ofReal_im,
      Complex.one_re, Complex.one_im, Complex.neg_re, Complex.neg_im] at hre
    have hpi := Real.pi_pos
    have h2 := sqrt_two_mul_self
    have hs1 : Real.sqrt 2 = 1 := by
      field_simp at hre
      nlinarith [hre]
    rw [hs1] at h2
    norm_num at h2
